import Mathlib

/-!
# Verification of the SES-shim module loader/linker core

Shallow embedding of the module-instance, compartment-construction
and import machinery of the SES-shim repository (module-instance.js,
compartment constructors, third-party module records), together with
proofs of the specification's claims about them.

Conventions of the embedding:
* JavaScript values that the code inspects are modelled by the small
  universe `JSVal` (strings, numbers, booleans, `undefined`, `null`,
  arrays, and opaque objects identified by a numeric id).
* Thrown JavaScript errors are modelled by `JSError`, a kind
  (TypeError, ReferenceError, SyntaxError or plain Error) paired with
  the message string the source builds.
* JavaScript objects used as string-keyed dictionaries (created with
  `create(null)` in the source) are modelled by `JSRec`, an
  association list in property-insertion order, matching the
  enumeration order of `entries`/`keys` for string-keyed objects.
* Functions used as pub/sub updaters are identified by numeric ids;
  the `===` identity comparisons of the source become equality of ids.
* Calling an updater is recorded in an explicit invocation log (a list
  of id/value pairs, in call order) rather than performed as an effect.
-/

/-- A small universe of JavaScript values, sufficient for the dynamic
checks performed by the embedded code (`typeof x === 'string'`,
`Array.isArray`, truthiness, WeakMap registration of objects). -/
inductive JSVal where
  | undef : JSVal
  | null : JSVal
  | bool : Bool → JSVal
  | num : Int → JSVal
  | str : String → JSVal
  | arr : List JSVal → JSVal
  | obj : Nat → JSVal

/-- JavaScript truthiness for `JSVal` (`if (value)`). -/
def JSVal.truthy : JSVal → Bool
  | .undef => false
  | .null => false
  | .bool b => b
  | .num n => n != 0
  | .str s => s ≠ ""
  | .arr _ => true
  | .obj _ => true

/-- The check `typeof v === 'string'`. -/
def JSVal.isString : JSVal → Bool
  | .str _ => true
  | _ => false

/-- The check `Array.isArray(v)`. -/
def JSVal.isArray : JSVal → Bool
  | .arr _ => true
  | _ => false

/-- The kind of a thrown JavaScript error. -/
inductive JSErrorKind where
  | typeError
  | referenceError
  | syntaxError
  | plainError
deriving DecidableEq, Repr

/-- A thrown JavaScript error: its constructor kind and message. -/
structure JSError where
  kind : JSErrorKind
  message : String
deriving DecidableEq, Repr

/-- JSON string quoting, `q` in the source (`JSON.stringify` on a string), used to
enquote names in error messages.  Escapes backslashes and double
quotes; escaping of control characters (which no claim exercises) is
elided. -/
def jsonQuote (s : String) : String :=
  "\"" ++ String.join (s.toList.map fun c =>
    if c = '\\' then "\\\\" else if c = '"' then "\\\"" else String.singleton c) ++ "\""

/-! ## JavaScript objects as ordered association lists -/

/-- A string-keyed JavaScript object (`create(null)` dictionary) in
property-insertion order. -/
def JSRec (α : Type) : Type := List (String × α)

/-- Property read `r[k]`: first entry with the key, `undefined`
(= `none`) when absent. -/
def lookupRec {α : Type} : JSRec α → String → Option α
  | [], _ => none
  | (k, v) :: t, key => if k = key then some v else lookupRec t key

/-- Property write `r[k] = v`: overwrite in place if present
(JavaScript keeps the original insertion position), append otherwise. -/
def setRec {α : Type} : JSRec α → String → α → JSRec α
  | [], key, v => [(key, v)]
  | (k, w) :: t, key, v =>
      if k = key then (k, v) :: t else (k, w) :: setRec t key v

/-- The keys of an object, in insertion order (`keys(r)`). -/
def keysR {α : Type} (r : JSRec α) : List String := r.map Prod.fst

theorem lookupRec_set_self {α : Type} (r : JSRec α) (k : String) (v : α) :
    lookupRec (setRec r k v) k = some v := by
  induction r with
  | nil => simp [setRec, lookupRec]
  | cons h t ih =>
    obtain ⟨k', w⟩ := h
    by_cases hk : k' = k
    · simp [setRec, hk, lookupRec]
    · simp [setRec, hk, lookupRec, ih]

theorem lookupRec_set_ne {α : Type} (r : JSRec α) (k k' : String) (v : α)
    (h : k' ≠ k) : lookupRec (setRec r k v) k' = lookupRec r k' := by
  have hkk : k ≠ k' := Ne.symm h
  induction r with
  | nil => simp [setRec, lookupRec, hkk]
  | cons hd t ih =>
    obtain ⟨k0, w⟩ := hd
    by_cases hk : k0 = k
    · subst hk
      simp [setRec, lookupRec, hkk]
    · simp [setRec, hk, lookupRec, ih]

theorem lookupRec_eq_none_of_not_mem {α : Type} (r : JSRec α) (k : String)
    (h : k ∉ keysR r) : lookupRec r k = none := by
  induction r with
  | nil => rfl
  | cons hd t ih =>
    obtain ⟨k0, w⟩ := hd
    have h' : k ∉ keysR t := fun hh => h (List.mem_cons_of_mem _ hh)
    have hne : ¬ k0 = k := fun hh => h (hh ▸ List.mem_cons_self _ _)
    show (if k0 = k then some w else lookupRec t k) = none
    rw [if_neg hne]
    exact ih h'

theorem mem_keysR_of_lookupRec_isSome {α : Type} (r : JSRec α) (k : String)
    (h : (lookupRec r k).isSome) : k ∈ keysR r := by
  by_contra hmem
  rw [lookupRec_eq_none_of_not_mem r k hmem] at h
  simp at h

theorem keysR_setRec {α : Type} (r : JSRec α) (k : String) (v : α) :
    keysR (setRec r k v) = if k ∈ keysR r then keysR r else keysR r ++ [k] := by
  induction r with
  | nil => simp [setRec, keysR]
  | cons hd t ih =>
    obtain ⟨k0, w⟩ := hd
    by_cases hk : k0 = k
    · subst hk
      simp [setRec, keysR]
    · by_cases hmem : k ∈ keysR t
      · have hm : k ∈ keysR ((k0, w) :: t) := List.mem_cons_of_mem _ hmem
        simp only [setRec, if_neg hk]
        show k0 :: keysR (setRec t k v) = _
        rw [ih, if_pos hmem, if_pos hm]
        rfl
      · have hm : k ∉ keysR ((k0, w) :: t) := by
          intro hh
          rcases List.mem_cons.mp hh with h1 | h2
          · exact hk h1.symm
          · exact hmem h2
        simp only [setRec, if_neg hk]
        show k0 :: keysR (setRec t k v) = _
        rw [ih, if_neg hmem, if_neg hm]
        rfl

theorem nodup_keysR_setRec {α : Type} (r : JSRec α) (k : String) (v : α)
    (h : (keysR r).Nodup) : (keysR (setRec r k v)).Nodup := by
  rw [keysR_setRec]
  by_cases hmem : k ∈ keysR r
  · simpa [hmem] using h
  · rw [if_neg hmem]
    refine List.Nodup.append h (List.nodup_singleton k) ?_
    intro a ha hb
    simp at hb
    exact hmem (hb ▸ ha)

/-! ## Binding records of `makeModuleInstance` (module-instance.js)

A fixed binding (from `__fixedExportMap__`) carries a TDZ-sensitive
getter, a one-shot `init`, and a `notify` that queues updaters during
TDZ.  A live binding (from `__liveExportMap__`) carries a getter, a
`set` proxy trap, an `update` sink and a `notify` that always
registers the updater.  Updaters are identified by numeric ids;
`selfId` is the identity of the binding's own `init`/`update` closure,
used by `notify` for its `updater === init` / `updater === update`
recursion guard.  The value read by a getter or passed to an updater
is an `Option α`, with `none` standing for JavaScript `undefined`. -/

/-- State of a fixed binding of `makeModuleInstance`: `value`, `tdz`
and `optUpdaters` (which the source sets to `null` when `init` runs,
modelled by `none`). -/
structure FixedBinding (α : Type) where
  localName : String
  selfId : Nat
  value : Option α
  tdz : Bool
  optUpdaters : Option (List Nat)

/-- The TDZ-sensitive getter of a fixed binding. -/
def FixedBinding.get {α : Type} (b : FixedBinding α) : Except JSError (Option α) :=
  if b.tdz then
    .error ⟨.referenceError, "binding " ++ jsonQuote b.localName ++ " not yet initialized"⟩
  else
    .ok b.value

/-- Fixed-binding `init(initValue)`: leave TDZ once, store the value, null out the
queued updaters and invoke each of them with the value.  The returned
list is the invocation log, in call order. -/
def FixedBinding.init {α : Type} (b : FixedBinding α) (initValue : α) :
    Except JSError (FixedBinding α × List (Nat × Option α)) :=
  if !b.tdz then
    .error ⟨.plainError, "Internal: binding " ++ jsonQuote b.localName ++ " already initialized"⟩
  else
    let updaters := b.optUpdaters.getD []
    .ok ({ b with value := some initValue, optUpdaters := none, tdz := false },
         updaters.map fun u => (u, some initValue))

/-- The `notify(updater)` of a fixed binding: no-op on the binding's own
`init`; during TDZ queue the updater, otherwise invoke it now with the
current value. -/
def FixedBinding.notify {α : Type} (b : FixedBinding α) (u : Nat) :
    FixedBinding α × List (Nat × Option α) :=
  if u = b.selfId then (b, [])
  else if b.tdz then
    ({ b with optUpdaters := some (b.optUpdaters.getD [] ++ [u]) }, [])
  else
    (b, [(u, b.value)])

/-- State of a live binding of `makeModuleInstance`: `value`, `tdz`
and the (never nulled) `updaters` array.  `exportName` appears in the
getter's error message, `localName` in the setter's. -/
structure LiveBinding (α : Type) where
  exportName : String
  localName : String
  selfId : Nat
  value : Option α
  tdz : Bool
  updaters : List Nat

/-- The TDZ-sensitive getter of a live binding. -/
def LiveBinding.get {α : Type} (b : LiveBinding α) : Except JSError (Option α) :=
  if b.tdz then
    .error ⟨.referenceError, "binding " ++ jsonQuote b.exportName ++ " not yet initialized"⟩
  else
    .ok b.value

/-- Live-binding `update(newValue)`: store the value, leave TDZ (callable even
during TDZ, e.g. for re-export wiring) and invoke every registered
updater with the value. -/
def LiveBinding.update {α : Type} (b : LiveBinding α) (newValue : α) :
    LiveBinding α × List (Nat × Option α) :=
  ({ b with value := some newValue, tdz := false },
   b.updaters.map fun u => (u, some newValue))

/-- The TDZ-sensitive setter (proxy trap) of a live binding. -/
def LiveBinding.set {α : Type} (b : LiveBinding α) (newValue : α) :
    Except JSError (LiveBinding α × List (Nat × Option α)) :=
  if b.tdz then
    .error ⟨.referenceError, "binding " ++ jsonQuote b.localName ++ " not yet initialized"⟩
  else
    .ok ({ b with value := some newValue },
         b.updaters.map fun u => (u, some newValue))

/-- The `notify(updater)` of a live binding: no-op on the binding's own
`update`; otherwise always register the updater, and when not in TDZ
also invoke it now with the current value. -/
def LiveBinding.notify {α : Type} (b : LiveBinding α) (u : Nat) :
    LiveBinding α × List (Nat × Option α) :=
  if u = b.selfId then (b, [])
  else
    let b' := { b with updaters := b.updaters ++ [u] }
    if !b.tdz then (b', [(u, b.value)]) else (b', [])

/-- Notify a live binding with a sequence of updaters, accumulating
the invocation log. -/
def liveNotifySeq {α : Type} (b : LiveBinding α) :
    List Nat → LiveBinding α × List (Nat × Option α)
  | [] => (b, [])
  | u :: us =>
      let (b1, log1) := b.notify u
      let (b2, log2) := liveNotifySeq b1 us
      (b2, log1 ++ log2)

theorem LiveBinding.notify_fst {α : Type} (b : LiveBinding α) (u : Nat)
    (h : ¬ u = b.selfId) :
    (b.notify u).1 = { b with updaters := b.updaters ++ [u] } := by
  by_cases ht : b.tdz <;> simp [LiveBinding.notify, h, ht]

theorem liveNotifySeq_updaters {α : Type} (us : List Nat) (b : LiveBinding α)
    (hself : ∀ x ∈ us, ¬ x = b.selfId) :
    (liveNotifySeq b us).1.updaters = b.updaters ++ us := by
  induction us generalizing b with
  | nil => simp [liveNotifySeq]
  | cons u us ih =>
    have hu : ¬ u = b.selfId := hself u (List.mem_cons_self _ _)
    have hfst := b.notify_fst u hu
    show (liveNotifySeq (b.notify u).1 us).1.updaters = _
    rw [hfst]
    rw [ih { b with updaters := b.updaters ++ [u] }
      (fun x hx => hself x (List.mem_cons_of_mem _ hx))]
    simp

/-- C4: while `tdz` is true, the getters of fixed and live bindings
and the setter of a live binding throw a `ReferenceError`; `init` of a
fixed binding and `update` of a live binding clear `tdz`, store the
new value, and invoke every updater queued (fixed) or registered
(live) so far with that value. -/
theorem binding_tdz_invariant {α : Type} (fb : FixedBinding α) (lb : LiveBinding α)
    (v w : α) :
    (fb.tdz = true →
      fb.get = .error ⟨.referenceError,
        "binding " ++ jsonQuote fb.localName ++ " not yet initialized"⟩) ∧
    (lb.tdz = true →
      lb.get = .error ⟨.referenceError,
        "binding " ++ jsonQuote lb.exportName ++ " not yet initialized"⟩ ∧
      lb.set w = .error ⟨.referenceError,
        "binding " ++ jsonQuote lb.localName ++ " not yet initialized"⟩) ∧
    (fb.tdz = true →
      fb.init v = .ok ({ fb with value := some v, optUpdaters := none, tdz := false },
        (fb.optUpdaters.getD []).map fun u => (u, some v))) ∧
    ((lb.update w).1.tdz = false ∧ (lb.update w).1.value = some w ∧
      (lb.update w).2 = lb.updaters.map fun u => (u, some w)) := by
  refine ⟨fun ht => ?_, fun ht => ⟨?_, ?_⟩, fun ht => ?_, ?_, ?_, ?_⟩
  · simp [FixedBinding.get, ht]
  · simp [LiveBinding.get, ht]
  · simp [LiveBinding.set, ht]
  · simp [FixedBinding.init, ht]
  · simp [LiveBinding.update]
  · simp [LiveBinding.update]
  · simp [LiveBinding.update]

def fbTdz : FixedBinding Nat := ⟨"x", 0, none, true, some [5]⟩
def lbTdz : LiveBinding Nat := ⟨"e", "l", 1, none, true, [7]⟩
def fbInited : FixedBinding Nat := ⟨"x", 0, some 2, false, none⟩
def lbInited : LiveBinding Nat := ⟨"e", "l", 1, some 5, false, [2]⟩

theorem binding_tdz_invariant_witness :
    fbTdz.get = .error ⟨.referenceError, "binding \"x\" not yet initialized"⟩ ∧
    lbTdz.get = .error ⟨.referenceError, "binding \"e\" not yet initialized"⟩ ∧
    lbTdz.set 4 = .error ⟨.referenceError, "binding \"l\" not yet initialized"⟩ ∧
    fbTdz.init 3 = .ok (⟨"x", 0, some 3, false, none⟩, [(5, some 3)]) ∧
    (lbTdz.update 4).1.tdz = false ∧ (lbTdz.update 4).1.value = some 4 ∧
    (lbTdz.update 4).2 = [(7, some 4)] := by
  have h := binding_tdz_invariant fbTdz lbTdz 3 4
  refine ⟨?_, ?_, ?_, ?_, h.2.2.2.1, h.2.2.2.2.1, ?_⟩
  · rw [h.1 rfl]; rfl
  · rw [(h.2.1 rfl).1]; rfl
  · rw [(h.2.1 rfl).2]; rfl
  · rw [h.2.2.1 rfl]; rfl
  · rw [h.2.2.2.2.2]; rfl

/-- C5: `notify(update)` of an exported binding registers the updater
for later changes and fires it immediately with the current value when
the binding is already initialized; during TDZ it is queued or
registered without being invoked; and initialization (`init`/`update`)
and reassignment (`update`/`set`) invoke the updaters in registration
order (the order of the updater list built by successive `notify`
calls). -/
theorem notify_semantics {α : Type} (fb : FixedBinding α) (lb : LiveBinding α)
    (u : Nat) (us : List Nat) (v : α) :
    (¬ u = fb.selfId → fb.tdz = true →
      fb.notify u = ({ fb with optUpdaters := some (fb.optUpdaters.getD [] ++ [u]) }, [])) ∧
    (¬ u = fb.selfId → fb.tdz = false →
      fb.notify u = (fb, [(u, fb.value)])) ∧
    (¬ u = lb.selfId →
      (lb.notify u).1.updaters = lb.updaters ++ [u] ∧
      (lb.tdz = true → (lb.notify u).2 = []) ∧
      (lb.tdz = false → (lb.notify u).2 = [(u, lb.value)])) ∧
    ((∀ x ∈ us, ¬ x = lb.selfId) →
      (liveNotifySeq lb us).1.updaters = lb.updaters ++ us) ∧
    ((lb.update v).2 = lb.updaters.map fun x => (x, some v)) ∧
    (lb.tdz = false →
      lb.set v = .ok ({ lb with value := some v },
        lb.updaters.map fun x => (x, some v))) := by
  refine ⟨fun hu ht => ?_, fun hu ht => ?_,
    fun hu => ⟨?_, fun ht => ?_, fun ht => ?_⟩,
    fun hs => liveNotifySeq_updaters us lb hs, ?_, fun ht => ?_⟩
  · simp [FixedBinding.notify, hu, ht]
  · simp [FixedBinding.notify, hu, ht]
  · rw [lb.notify_fst u hu]
  · simp [LiveBinding.notify, hu, ht]
  · simp [LiveBinding.notify, hu, ht]
  · simp [LiveBinding.update]
  · simp [LiveBinding.set, ht]

theorem notify_semantics_witness :
    fbTdz.notify 9 = (⟨"x", 0, none, true, some [5, 9]⟩, []) ∧
    fbInited.notify 9 = (fbInited, [(9, some 2)]) ∧
    (lbTdz.notify 9).1.updaters = [7, 9] ∧
    (lbTdz.notify 9).2 = [] ∧
    (lbInited.notify 9).2 = [(9, some 5)] ∧
    (liveNotifySeq lbTdz [8, 9]).1.updaters = [7, 8, 9] ∧
    (lbInited.update 4).2 = [(2, some 4)] ∧
    lbInited.set 4 = .ok (⟨"e", "l", 1, some 4, false, [2]⟩, [(2, some 4)]) := by
  have h1 := notify_semantics fbTdz lbTdz 9 [8, 9] (4 : Nat)
  have h2 := notify_semantics fbInited lbInited 9 [] (4 : Nat)
  refine ⟨?_, ?_, ?_, (h1.2.2.1 (by decide)).2.1 rfl, ?_, ?_, ?_, ?_⟩
  · rw [h1.1 (by decide) rfl]; rfl
  · rw [h2.2.1 (by decide) rfl]; rfl
  · rw [(h1.2.2.1 (by decide)).1]; rfl
  · rw [(h2.2.2.1 (by decide)).2.2 rfl]; rfl
  · rw [h1.2.2.2.1 (by decide)]; rfl
  · rw [h2.2.2.2.2.1]; rfl
  · rw [h2.2.2.2.2.2 rfl]; rfl

/-- C10: passing a binding's own `init` (fixed) or `update` (live)
function to its `notify` is a no-op: the updater is neither queued nor
invoked, so a re-export cycle cannot subscribe a binding's update sink
to itself. -/
theorem notify_self_noop {α : Type} (fb : FixedBinding α) (lb : LiveBinding α) :
    fb.notify fb.selfId = (fb, []) ∧ lb.notify lb.selfId = (lb, []) := by
  constructor <;> simp [FixedBinding.notify, LiveBinding.notify]

/-! ## `execute()` of module instances

`makeModuleInstance` keeps `optFunctor` (nulled before the single
invocation), plus a `didThrow` flag with the cached `thrownError`; the
flag/value pair is modelled as one `Option JSError` (`didThrow` is set
exactly when `thrownError` is, and always together).  The functor's
behaviour on its single invocation is an `Except JSError Unit`.

`makeThirdPartyModuleInstance.execute` keeps only the `activated`
boolean, set to `true` *before* the record's `execute` is called, and
does not catch what that call throws. -/

/-- State of a parsed module instance's `execute`: the not-yet-consumed
functor (with its behaviour), and the cached thrown error. -/
structure ParsedInstanceState where
  optFunctor : Option (Except JSError Unit)
  thrown : Option JSError

/-- Initial state of a parsed instance whose functor behaves as `f`. -/
def parsedInit (f : Except JSError Unit) : ParsedInstanceState := ⟨some f, none⟩

/-- Outcome of one `execute()` call. -/
structure ExecOutcome (σ : Type) where
  state : σ
  result : Except JSError Unit
  invokedFunctor : Bool

/-- One call of a parsed instance's `execute()`: consume the functor
if present (catching its error), then rethrow the cached error if
any. -/
def parsedExecute (s : ParsedInstanceState) : ExecOutcome ParsedInstanceState :=
  let (s1, invoked) :=
    match s.optFunctor with
    | some f =>
        ({ optFunctor := none,
           thrown := match f with | .error e => some e | .ok _ => s.thrown }, true)
    | none => (s, false)
  ⟨s1, match s1.thrown with | some e => .error e | none => .ok (), invoked⟩

/-- State after `k` further `execute()` calls. -/
def parsedAfter (s : ParsedInstanceState) : Nat → ParsedInstanceState
  | 0 => s
  | k + 1 => parsedAfter (parsedExecute s).state k

/-- Total number of functor invocations over `n` consecutive
`execute()` calls. -/
def parsedInvocations (s : ParsedInstanceState) : Nat → Nat
  | 0 => 0
  | n + 1 => (if (parsedExecute s).invokedFunctor then 1 else 0)
      + parsedInvocations (parsedExecute s).state n

/-- State of a third-party module instance's `execute`. -/
structure ThirdPartyInstanceState where
  activated : Bool

/-- One call of a third-party instance's `execute()`: on the first
call, activate, mark activated, then run the record's `execute`
(whose thrown error, if any, propagates uncaught); later calls do
nothing. -/
def thirdPartyExecute (behavior : Except JSError Unit) (s : ThirdPartyInstanceState) :
    ExecOutcome ThirdPartyInstanceState :=
  if s.activated then ⟨s, .ok (), false⟩
  else ⟨⟨true⟩, behavior, true⟩

/-- State after `k` further third-party `execute()` calls. -/
def thirdPartyAfter (behavior : Except JSError Unit) (s : ThirdPartyInstanceState) :
    Nat → ThirdPartyInstanceState
  | 0 => s
  | k + 1 => thirdPartyAfter behavior (thirdPartyExecute behavior s).state k

/-- Total functor (record `execute`) invocations over `n` consecutive
third-party `execute()` calls. -/
def thirdPartyInvocations (behavior : Except JSError Unit) (s : ThirdPartyInstanceState) :
    Nat → Nat
  | 0 => 0
  | n + 1 => (if (thirdPartyExecute behavior s).invokedFunctor then 1 else 0)
      + thirdPartyInvocations behavior (thirdPartyExecute behavior s).state n

theorem parsedInvocations_none (s : ParsedInstanceState) (h : s.optFunctor = none)
    (n : Nat) : parsedInvocations s n = 0 := by
  induction n generalizing s with
  | zero => rfl
  | succ n ih =>
    simp [parsedInvocations, parsedExecute, h]
    exact ih s h

theorem parsedAfter_fixed (e : JSError) (k : Nat) :
    parsedAfter ⟨none, some e⟩ k = ⟨none, some e⟩ := by
  induction k with
  | zero => rfl
  | succ k ih => exact ih

theorem parsedAfter_error (e : JSError) (k : Nat) :
    parsedAfter (parsedInit (.error e)) (k + 1) = ⟨none, some e⟩ :=
  parsedAfter_fixed e k

theorem thirdPartyAfter_fixed (b : Except JSError Unit) (k : Nat) :
    thirdPartyAfter b ⟨true⟩ k = ⟨true⟩ := by
  induction k with
  | zero => rfl
  | succ k ih => exact ih

theorem thirdPartyAfter_succ (b : Except JSError Unit) (k : Nat) :
    thirdPartyAfter b ⟨false⟩ (k + 1) = ⟨true⟩ :=
  thirdPartyAfter_fixed b k

theorem thirdPartyInvocations_activated (b : Except JSError Unit) (n : Nat) :
    thirdPartyInvocations b ⟨true⟩ n = 0 := by
  induction n with
  | zero => rfl
  | succ n ih =>
    show (0 : Nat) + thirdPartyInvocations b ⟨true⟩ n = 0
    rw [Nat.zero_add]
    exact ih

/-- The error a throwing third-party record `execute` is modelled to
throw in the counterexample. -/
def boomErr : JSError := ⟨.plainError, "boom"⟩

/-- C1 counterexample: for a third-party module instance whose record
`execute` throws, the first `execute()` call propagates the error but
the second call returns normally — the failure is not sticky, because
`activated` is set before the record's `execute` runs and nothing is
cached or rethrown. -/
theorem thirdParty_failure_not_sticky :
    (thirdPartyExecute (.error boomErr) ⟨false⟩).result = .error boomErr ∧
    (thirdPartyExecute (.error boomErr)
      (thirdPartyExecute (.error boomErr) ⟨false⟩).state).result = .ok () ∧
    (Except.ok () : Except JSError Unit) ≠ .error boomErr := by
  refine ⟨rfl, rfl, fun h => ?_⟩
  exact Except.noConfusion h

/-- C1 (amended): `execute()` invokes the underlying functor
(parsed form) or the record's `execute` (third-party form) at most
once across all calls; for instances built by `makeModuleInstance` a
thrown error is cached and every subsequent `execute()` call rethrows
that same error value, while for third-party instances the error
propagates out of the first call only and every subsequent call
returns normally. -/
theorem execute_at_most_once_and_sticky :
    (∀ (f : Except JSError Unit) (n : Nat), parsedInvocations (parsedInit f) n ≤ 1) ∧
    (∀ (e : JSError) (k : Nat),
      (parsedExecute (parsedAfter (parsedInit (.error e)) k)).result = .error e) ∧
    (∀ (b : Except JSError Unit) (n : Nat), thirdPartyInvocations b ⟨false⟩ n ≤ 1) ∧
    (∀ (b : Except JSError Unit) (k : Nat),
      (thirdPartyExecute b (thirdPartyAfter b ⟨false⟩ (k + 1))).result = .ok ()) := by
  refine ⟨fun f n => ?_, fun e k => ?_, fun b n => ?_, fun b k => ?_⟩
  · cases n with
    | zero => exact Nat.zero_le 1
    | succ n =>
      show (if (parsedExecute (parsedInit f)).invokedFunctor then 1 else 0)
          + parsedInvocations (parsedExecute (parsedInit f)).state n ≤ 1
      have hs : (parsedExecute (parsedInit f)).state.optFunctor = none := by
        cases f <;> rfl
      rw [parsedInvocations_none _ hs]
      have hi : (parsedExecute (parsedInit f)).invokedFunctor = true := by
        cases f <;> rfl
      rw [hi]
      exact Nat.le_refl 1
  · cases k with
    | zero => rfl
    | succ k =>
      rw [parsedAfter_error e k]
      rfl
  · cases n with
    | zero => exact Nat.zero_le 1
    | succ n =>
      show (if (thirdPartyExecute b ⟨false⟩).invokedFunctor then 1 else 0)
          + thirdPartyInvocations b (thirdPartyExecute b ⟨false⟩).state n ≤ 1
      have hs : (thirdPartyExecute b ⟨false⟩).state = ⟨true⟩ := rfl
      rw [hs, thirdPartyInvocations_activated]
      exact Nat.le_refl 1
  · rw [thirdPartyAfter_succ b k]
    rfl

/-! ## Third-party static module record validation
(`makeThirdPartyModuleInstance`, module-instance.js) -/

/-- The spec's notion "an array of strings", used to state the claim
about third-party `exports` validation. -/
def isArrayOfStrings : JSVal → Bool
  | .arr es => es.all JSVal.isString
  | _ => false

/-- The message of the `TypeError` thrown by
`makeThirdPartyModuleInstance` for a malformed `exports`. -/
def thirdPartyExportsMsg (moduleSpecifier : String) : String :=
  "SES third-party static module record \"exports\" property must be an array of strings for module "
    ++ moduleSpecifier

/-- The validation `makeThirdPartyModuleInstance` performs on
`staticModuleRecord.exports`: only when the property is truthy, check
`Array.isArray` and that no element fails `typeof name === 'string'`. -/
def thirdPartyExportsValidation (exports : JSVal) (moduleSpecifier : String) :
    Option JSError :=
  if exports.truthy then
    match exports with
    | .arr elems =>
        if elems.any (fun v => !v.isString) then
          some ⟨.typeError, thirdPartyExportsMsg moduleSpecifier⟩
        else none
    | _ => some ⟨.typeError, thirdPartyExportsMsg moduleSpecifier⟩
  else none

/-- Construction of a third-party module instance, reduced to what the
claims observe: the `exports` validation, then (on success) the list
of export names for which bindings and notifiers are installed. -/
def makeThirdPartyModuleInstance (exports : JSVal) (moduleSpecifier : String) :
    Except JSError (List String) :=
  match thirdPartyExportsValidation exports moduleSpecifier with
  | some e => .error e
  | none =>
      match exports with
      | .arr elems => .ok (elems.filterMap fun v =>
          match v with | .str s => some s | _ => none)
      | _ => .ok []

/-- C9 counterexample: a static module record whose `exports` property
is `null` — present but not an array of strings — is accepted without
any error, because the validation only runs when `exports` is truthy. -/
theorem thirdParty_exports_null_accepted :
    makeThirdPartyModuleInstance JSVal.null "m" = .ok [] ∧
    isArrayOfStrings JSVal.null = false :=
  ⟨rfl, rfl⟩

/-- C9 (amended): whenever a third-party module instance is
constructed from a static module record whose `exports` property is
truthy and not an array of strings, `makeThirdPartyModuleInstance`
raises a `TypeError` at instance construction whose message names the
module specifier. -/
theorem thirdParty_exports_validation (exports : JSVal) (ms : String)
    (htruthy : exports.truthy = true) (hnot : isArrayOfStrings exports = false) :
    makeThirdPartyModuleInstance exports ms =
      .error ⟨.typeError, thirdPartyExportsMsg ms⟩ := by
  cases exports with
  | undef => simp [JSVal.truthy] at htruthy
  | null => simp [JSVal.truthy] at htruthy
  | bool b =>
    simp [JSVal.truthy] at htruthy
    simp [makeThirdPartyModuleInstance, thirdPartyExportsValidation, JSVal.truthy, htruthy]
  | num n =>
    simp [JSVal.truthy] at htruthy
    simp [makeThirdPartyModuleInstance, thirdPartyExportsValidation, JSVal.truthy, htruthy]
  | str s =>
    simp [JSVal.truthy] at htruthy
    simp [makeThirdPartyModuleInstance, thirdPartyExportsValidation, JSVal.truthy, htruthy]
  | obj id =>
    simp [makeThirdPartyModuleInstance, thirdPartyExportsValidation, JSVal.truthy]
  | arr es =>
    simp [isArrayOfStrings, List.all_eq_true] at hnot
    obtain ⟨x, hx, hxs⟩ := hnot
    have hany : es.any (fun v => !v.isString) = true := by
      rw [List.any_eq_true]
      exact ⟨x, hx, by simp [hxs]⟩
    simp [makeThirdPartyModuleInstance, thirdPartyExportsValidation, JSVal.truthy, hany]

theorem thirdParty_exports_validation_witness :
    (JSVal.arr [JSVal.num 1]).truthy = true ∧
    isArrayOfStrings (JSVal.arr [JSVal.num 1]) = false ∧
    makeThirdPartyModuleInstance (JSVal.arr [JSVal.num 1]) "mod" =
      .error ⟨.typeError,
        "SES third-party static module record \"exports\" property must be an array of strings for module mod"⟩ :=
  ⟨rfl, rfl, thirdParty_exports_validation (JSVal.arr [JSVal.num 1]) "mod" rfl rfl⟩

/-! ## `Compartment` constructor validation (compartment module)

The constructor first walks `entries(moduleMap)` in order, rejecting a
string value with a `TypeError` and a value absent from the
process-wide `moduleAliases` WeakMap with a `ReferenceError`, and then
filters the own property names of `globalLexicals` through
`isValidIdentifierName` (defined in scope-constants.js, outside the
embedded sources, so taken here as a parameter), throwing a plain
`Error` listing the invalid names.  Only after both checks pass is the
compartment's private state installed. -/

/-- The check `moduleAliases.get(v) !== undefined`: a WeakMap can only hold
object keys, so primitives are never registered; object identities are
looked up in the registry predicate. -/
def moduleAliasRegistered (aliases : Nat → Bool) : JSVal → Bool
  | .obj id => aliases id
  | _ => false

/-- The string content of a `JSVal` known to be a string (used only to
build the TypeError message, which is reached only for strings). -/
def stringVal : JSVal → String
  | .str s => s
  | _ => ""

/-- The moduleMap validation loop of the `Compartment` constructor. -/
def validateModuleMap (aliases : Nat → Bool) : List (String × JSVal) → Option JSError
  | [] => none
  | (specifier, v) :: rest =>
      if v.isString then
        some ⟨.typeError, "Cannot map module " ++ jsonQuote specifier ++ " to "
          ++ jsonQuote (stringVal v) ++ " in parent compartment"⟩
      else if moduleAliasRegistered aliases v then
        validateModuleMap aliases rest
      else
        some ⟨.referenceError, "Cannot map module " ++ jsonQuote specifier
          ++ " because it has no known compartment in this realm"⟩

/-- The globalLexicals validation of the `Compartment` constructor:
filter the own property names through `isValidIdentifierName` and
throw a plain `Error` listing the invalid ones when any exist. -/
def validateGlobalLexicals (isValidIdentifierName : String → Bool)
    (names : List String) : Option JSError :=
  let invalidNames := names.filter fun n => !isValidIdentifierName n
  if invalidNames.isEmpty then none
  else
    some ⟨.plainError, "Cannot create compartment with invalid names for global lexicals: "
      ++ String.intercalate ", " invalidNames
      ++ "; these names would not be lexically mentionable"⟩

/-- The validation sequence of the `Compartment` constructor: the
moduleMap walk, then the globalLexicals check.  `none` means both
checks passed and the compartment's private fields are installed. -/
def compartmentConstruct (aliases : Nat → Bool) (moduleMap : List (String × JSVal))
    (isValidIdentifierName : String → Bool) (lexicalNames : List String) :
    Option JSError :=
  match validateModuleMap aliases moduleMap with
  | some e => some e
  | none => validateGlobalLexicals isValidIdentifierName lexicalNames


theorem moduleAliasRegistered_isString {aliases : Nat → Bool} {v : JSVal}
    (h : v.isString = true) : moduleAliasRegistered aliases v = false := by
  cases v <;> first | rfl | simp [JSVal.isString] at h

theorem validateModuleMap_cons_str (aliases : Nat → Bool) (s : String) (v : JSVal)
    (t : List (String × JSVal)) (hs : v.isString = true) :
    validateModuleMap aliases ((s, v) :: t) =
      some ⟨.typeError, "Cannot map module " ++ jsonQuote s ++ " to "
        ++ jsonQuote (stringVal v) ++ " in parent compartment"⟩ := by
  cases v <;> first | rfl | simp [JSVal.isString] at hs

theorem validateModuleMap_cons_reg (aliases : Nat → Bool) (s : String) (v : JSVal)
    (t : List (String × JSVal)) (hreg : moduleAliasRegistered aliases v = true) :
    validateModuleMap aliases ((s, v) :: t) = validateModuleMap aliases t := by
  have hs : v.isString = false := by
    cases v <;> first | rfl | simp [moduleAliasRegistered] at hreg
  simp [validateModuleMap, hs, hreg]

theorem validateModuleMap_cons_unreg (aliases : Nat → Bool) (s : String) (v : JSVal)
    (t : List (String × JSVal)) (hs : v.isString = false)
    (hreg : moduleAliasRegistered aliases v = false) :
    validateModuleMap aliases ((s, v) :: t) =
      some ⟨.referenceError, "Cannot map module " ++ jsonQuote s
        ++ " because it has no known compartment in this realm"⟩ := by
  simp [validateModuleMap, hs, hreg]

theorem validateModuleMap_none_iff (aliases : Nat → Bool)
    (mm : List (String × JSVal)) :
    validateModuleMap aliases mm = none ↔
      ∀ p ∈ mm, moduleAliasRegistered aliases p.2 = true := by
  induction mm with
  | nil => simp [validateModuleMap]
  | cons hd t ih =>
    obtain ⟨s, v⟩ := hd
    by_cases hs : v.isString = true
    · rw [validateModuleMap_cons_str aliases s v t hs]
      constructor
      · intro h
        exact absurd h (by simp)
      · intro h
        have h0 := h (s, v) (List.mem_cons_self _ _)
        rw [moduleAliasRegistered_isString hs] at h0
        exact absurd h0 Bool.false_ne_true
    · have hs' : v.isString = false := by
        revert hs
        cases v.isString <;> simp
      by_cases hreg : moduleAliasRegistered aliases v = true
      · rw [validateModuleMap_cons_reg aliases s v t hreg, ih]
        constructor
        · intro h p hp
          rcases List.mem_cons.mp hp with h1 | h2
          · rw [h1]
            exact hreg
          · exact h p h2
        · intro h p hp
          exact h p (List.mem_cons_of_mem _ hp)
      · have hreg' : moduleAliasRegistered aliases v = false := by
          revert hreg
          cases moduleAliasRegistered aliases v <;> simp
        rw [validateModuleMap_cons_unreg aliases s v t hs' hreg']
        constructor
        · intro h
          exact absurd h (by simp)
        · intro h
          have h0 := h (s, v) (List.mem_cons_self _ _)
          rw [hreg'] at h0
          exact absurd h0 Bool.false_ne_true

theorem validateModuleMap_offender (aliases : Nat → Bool)
    (pre : List (String × JSVal)) (specifier : String) (v : JSVal)
    (post : List (String × JSVal))
    (hpre : ∀ p ∈ pre, moduleAliasRegistered aliases p.2 = true)
    (hv : moduleAliasRegistered aliases v = false) :
    ∃ e, validateModuleMap aliases (pre ++ (specifier, v) :: post) = some e ∧
      e.kind = (if v.isString then JSErrorKind.typeError else JSErrorKind.referenceError) := by
  induction pre with
  | nil =>
    by_cases hs : v.isString = true
    · refine ⟨⟨.typeError, "Cannot map module " ++ jsonQuote specifier ++ " to "
        ++ jsonQuote (stringVal v) ++ " in parent compartment"⟩, ?_, by simp [hs]⟩
      show validateModuleMap aliases ((specifier, v) :: post) = _
      exact validateModuleMap_cons_str aliases specifier v post hs
    · have hs' : v.isString = false := by
        revert hs
        cases v.isString <;> simp
      refine ⟨⟨.referenceError, "Cannot map module " ++ jsonQuote specifier
        ++ " because it has no known compartment in this realm"⟩, ?_, by simp [hs']⟩
      show validateModuleMap aliases ((specifier, v) :: post) = _
      exact validateModuleMap_cons_unreg aliases specifier v post hs' hv
  | cons hd t ih =>
    obtain ⟨s0, v0⟩ := hd
    have hreg0 : moduleAliasRegistered aliases v0 = true :=
      hpre (s0, v0) (List.mem_cons_self _ _)
    obtain ⟨e, he, hk⟩ := ih fun p hp => hpre p (List.mem_cons_of_mem _ hp)
    refine ⟨e, ?_, hk⟩
    show validateModuleMap aliases ((s0, v0) :: (t ++ (specifier, v) :: post)) = some e
    rw [validateModuleMap_cons_reg aliases s0 v0 _ hreg0]
    exact he

/-- C6: building a compartment fails when any `moduleMap` entry's
value is a string (with a `TypeError`) or is not registered in the
process-wide module-aliases registry (with a `ReferenceError`), with
the error kind determined by the first offending entry; the
compartment is only constructed when every `moduleMap` value is a
recognized exports proxy. -/
theorem compartment_moduleMap_validation (aliases : Nat → Bool)
    (mm : List (String × JSVal)) (isValidIdentifierName : String → Bool)
    (lexicalNames : List String) :
    (compartmentConstruct aliases mm isValidIdentifierName lexicalNames = none →
      ∀ p ∈ mm, moduleAliasRegistered aliases p.2 = true) ∧
    (validateModuleMap aliases mm = none ↔
      ∀ p ∈ mm, moduleAliasRegistered aliases p.2 = true) ∧
    (∀ pre specifier v post,
      mm = pre ++ (specifier, v) :: post →
      (∀ p ∈ pre, moduleAliasRegistered aliases p.2 = true) →
      moduleAliasRegistered aliases v = false →
      ∃ e, compartmentConstruct aliases mm isValidIdentifierName lexicalNames = some e ∧
        e.kind = (if v.isString then JSErrorKind.typeError else JSErrorKind.referenceError)) := by
  refine ⟨?_, validateModuleMap_none_iff aliases mm, ?_⟩
  · intro h
    rw [← validateModuleMap_none_iff]
    cases hvm : validateModuleMap aliases mm with
    | none => rfl
    | some e => simp [compartmentConstruct, hvm] at h
  · intro pre specifier v post hmm hpre hv
    obtain ⟨e, he, hk⟩ := validateModuleMap_offender aliases pre specifier v post hpre hv
    exact ⟨e, by simp [compartmentConstruct, hmm, he], hk⟩

theorem compartment_moduleMap_validation_witness :
    moduleAliasRegistered (fun id => id == 0) (JSVal.str "x") = false ∧
    moduleAliasRegistered (fun id => id == 0) (JSVal.num 3) = false ∧
    moduleAliasRegistered (fun id => id == 0) (JSVal.obj 0) = true ∧
    (∃ e, compartmentConstruct (fun id => id == 0)
        [("a", JSVal.obj 0), ("b", JSVal.str "x")] (fun _ => true) [] = some e ∧
      e.kind = JSErrorKind.typeError) ∧
    (∃ e, compartmentConstruct (fun id => id == 0)
        [("b", JSVal.num 3)] (fun _ => true) [] = some e ∧
      e.kind = JSErrorKind.referenceError) := by
  refine ⟨rfl, rfl, rfl, ?_, ?_⟩
  · obtain ⟨e, he, hk⟩ := (compartment_moduleMap_validation (fun id => id == 0)
      [("a", JSVal.obj 0), ("b", JSVal.str "x")] (fun _ => true) []).2.2
      [("a", JSVal.obj 0)] "b" (JSVal.str "x") [] rfl
      (by intro p hp; simp at hp; rw [hp]; rfl) rfl
    exact ⟨e, he, by simpa using hk⟩
  · obtain ⟨e, he, hk⟩ := (compartment_moduleMap_validation (fun id => id == 0)
      [("b", JSVal.num 3)] (fun _ => true) []).2.2
      [] "b" (JSVal.num 3) [] rfl (by intro p hp; simp at hp) rfl
    exact ⟨e, he, by simpa using hk⟩

/-- C7 counterexample: a `globalLexicals` own property name rejected
by `isValidIdentifierName` makes construction fail with a plain
`Error` — not a `TypeError` — listing the invalid name. -/
theorem compartment_lexicals_error_is_plain :
    compartmentConstruct (fun _ => false) [] (fun _ => false) ["1x"] =
      some ⟨.plainError,
        "Cannot create compartment with invalid names for global lexicals: 1x; these names would not be lexically mentionable"⟩ ∧
    JSErrorKind.plainError ≠ JSErrorKind.typeError :=
  ⟨rfl, by decide⟩

/-- C7 (amended): if any own property name of the `globalLexicals`
option is not a valid identifier name (and the moduleMap validation
that precedes this check passes), the `Compartment` constructor fails
synchronously with a plain `Error` — not a `TypeError` — whose message
lists the invalid names, and no compartment is created. -/
theorem compartment_invalid_lexicals (aliases : Nat → Bool)
    (mm : List (String × JSVal)) (isValidIdentifierName : String → Bool)
    (names : List String)
    (hmm : ∀ p ∈ mm, moduleAliasRegistered aliases p.2 = true)
    (hbad : (names.filter fun n => !isValidIdentifierName n) ≠ []) :
    compartmentConstruct aliases mm isValidIdentifierName names =
      some ⟨.plainError, "Cannot create compartment with invalid names for global lexicals: "
        ++ String.intercalate ", " (names.filter fun n => !isValidIdentifierName n)
        ++ "; these names would not be lexically mentionable"⟩ := by
  have hvm : validateModuleMap aliases mm = none :=
    (validateModuleMap_none_iff aliases mm).mpr hmm
  have hne : (names.filter fun n => !isValidIdentifierName n).isEmpty = false := by
    cases hf : names.filter fun n => !isValidIdentifierName n with
    | nil => exact absurd hf hbad
    | cons a l => rfl
  simp [compartmentConstruct, hvm, validateGlobalLexicals, hne]

theorem compartment_invalid_lexicals_witness :
    ((["ok", "1x"].filter fun n => !(n != "1x" : Bool)) ≠ []) ∧
    compartmentConstruct (fun _ => false) [] (fun n => n != "1x") ["ok", "1x"] =
      some ⟨.plainError,
        "Cannot create compartment with invalid names for global lexicals: 1x; these names would not be lexically mentionable"⟩ :=
  ⟨by decide, compartment_invalid_lexicals (fun _ => false) [] (fun n => n != "1x")
    ["ok", "1x"] (by intro p hp; simp at hp) (by decide)⟩

/-! ## `Compartment.prototype.import` / `load` / `importNow`

The asynchronous surface is embedded in `Except JSError`: a rejected
promise (or a synchronous throw inside the `async` method) is
`.error`, a fulfilled one `.ok`.  The compartment's loader and linker
are abstracted as the functions `loadResult`/`linkResult` of the
compartment state; `importNow` links, executes the linked root
instance, and returns its `exportsProxy` (identified by a numeric
id). -/

/-- The root module instance as produced by `link`: the outcome of its
(first) `execute()` call and the identity of its exports proxy. -/
structure LinkedInstance where
  executeResult : Except JSError Unit
  exportsProxy : Nat

/-- The state of a compartment that the module-system methods
consult: whether `importHook`/`resolveHook` are functions, the result
of `load(privateFields, moduleAliases, this, specifier)`, and the
result of `link(privateFields, moduleAliases, this, specifier)`. -/
structure CompartmentModel where
  hasImportHook : Bool
  hasResolveHook : Bool
  loadResult : String → Except JSError Unit
  linkResult : String → Except JSError LinkedInstance

/-- The `assertModuleHooks` guard of the module-system methods. -/
def assertModuleHooksM (c : CompartmentModel) : Except JSError Unit :=
  if c.hasImportHook && c.hasResolveHook then .ok ()
  else .error ⟨.typeError,
    "Compartment must be constructed with an importHook and a resolveHook for it to be able to load modules"⟩

/-- Method `importNow(specifier)`: argument check, hooks check, link, execute
the linked root instance, return its exports proxy. -/
def importNowM (c : CompartmentModel) (specifier : JSVal) : Except JSError Nat :=
  match specifier with
  | .str s =>
      match assertModuleHooksM c with
      | .error e => .error e
      | .ok _ =>
          match c.linkResult s with
          | .error e => .error e
          | .ok inst =>
              match inst.executeResult with
              | .error e => .error e
              | .ok _ => .ok inst.exportsProxy
  | _ => .error ⟨.typeError, "first argument of importNow() must be a string"⟩

/-- Method `load(specifier)`: argument check, hooks check, then the loader. -/
def loadM (c : CompartmentModel) (specifier : JSVal) : Except JSError Unit :=
  match specifier with
  | .str s =>
      match assertModuleHooksM c with
      | .error e => .error e
      | .ok _ => c.loadResult s
  | _ => .error ⟨.typeError, "first argument of load() must be a string"⟩

/-- The `{ namespace }` box in which `import` resolves. -/
structure NamespaceBox where
  namespace_ : Nat

/-- Method `import(specifier)`: argument check, hooks check, run the loader,
then `this.importNow(specifier)` and box its result. -/
def importM (c : CompartmentModel) (specifier : JSVal) : Except JSError NamespaceBox :=
  match specifier with
  | .str s =>
      match assertModuleHooksM c with
      | .error e => .error e
      | .ok _ =>
          match c.loadResult s with
          | .error e => .error e
          | .ok _ =>
              match importNowM c specifier with
              | .error e => .error e
              | .ok ns => .ok ⟨ns⟩
  | _ => .error ⟨.typeError, "first argument of import() must be a string"⟩

/-- The spec's description of `import`, stated in its words: perform
`load` for the specifier and then call `importNow`, boxing the
namespace. -/
def importViaLoadThenImportNow (c : CompartmentModel) (specifier : JSVal) :
    Except JSError NamespaceBox :=
  match loadM c specifier with
  | .error e => .error e
  | .ok _ =>
      match importNowM c specifier with
      | .error e => .error e
      | .ok ns => .ok ⟨ns⟩

/-- C8: for every string specifier, `compartment.import(S)` is
equivalent to performing `load(S)` and then `importNow(S)`: it yields
`{ namespace }` where `namespace` is exactly the exports proxy of the
linked root instance after `execute`, and it rejects when `load`
rejects. -/
theorem import_refines_load_then_importNow (c : CompartmentModel) (s : String) :
    importM c (.str s) = importViaLoadThenImportNow c (.str s) ∧
    (∀ e, loadM c (.str s) = .error e → importM c (.str s) = .error e) ∧
    (∀ b, importM c (.str s) = .ok b →
      ∃ inst, c.linkResult s = .ok inst ∧ inst.executeResult = .ok () ∧
        b.namespace_ = inst.exportsProxy ∧
        importNowM c (.str s) = .ok inst.exportsProxy) := by
  refine ⟨?_, ?_, ?_⟩
  · cases hh : assertModuleHooksM c with
    | error e => simp [importM, importViaLoadThenImportNow, loadM, hh]
    | ok u =>
        cases u
        cases hl : c.loadResult s with
        | error e => simp [importM, importViaLoadThenImportNow, loadM, hh, hl]
        | ok v =>
            cases v
            simp [importM, importViaLoadThenImportNow, loadM, hh, hl]
  · intro e he
    cases hh : assertModuleHooksM c with
    | error e' =>
        simp [loadM, hh] at he
        simp [importM, hh, he]
    | ok u =>
        cases u
        simp [loadM, hh] at he
        simp [importM, hh, he]
  · intro b hb
    cases hh : assertModuleHooksM c with
    | error e' => simp [importM, hh] at hb
    | ok u =>
        cases u
        cases hl : c.loadResult s with
        | error e => simp [importM, hh, hl] at hb
        | ok v =>
            cases v
            cases hlink : c.linkResult s with
            | error e => simp [importM, importNowM, hh, hl, hlink] at hb
            | ok inst =>
                cases hexec : inst.executeResult with
                | error e => simp [importM, importNowM, hh, hl, hlink, hexec] at hb
                | ok w =>
                    cases w
                    simp [importM, importNowM, hh, hl, hlink, hexec] at hb
                    refine ⟨inst, rfl, hexec, ?_, ?_⟩
                    · rw [← hb]
                    · simp [importNowM, hh, hlink, hexec]

/-- A concrete compartment model for the C8 witness. -/
def cmWitness : CompartmentModel :=
  ⟨true, true, fun _ => .ok (), fun _ => .ok ⟨.ok (), 7⟩⟩

theorem import_refines_witness :
    importM cmWitness (.str "a") = importViaLoadThenImportNow cmWitness (.str "a") ∧
    importM cmWitness (.str "a") = .ok ⟨7⟩ ∧
    (∃ inst, cmWitness.linkResult "a" = .ok inst ∧
      inst.executeResult = .ok () ∧ (NamespaceBox.mk 7).namespace_ = inst.exportsProxy ∧
      importNowM cmWitness (.str "a") = .ok inst.exportsProxy) :=
  ⟨(import_refines_load_then_importNow cmWitness "a").1, rfl,
    (import_refines_load_then_importNow cmWitness "a").2.2 ⟨7⟩ rfl⟩

/-! ## The `imports(updateRecord)` step of a parsed module instance

`imports` walks the update record (a `Map`, iterated in insertion
order): per dependency it executes the instance, subscribes the
requested updaters to the dependency's notifiers (raising a
`SyntaxError` for a missing export name), and gathers `export *`
candidates in `candidateAll` (pre-seeded with `default: false`); a
second pass forwards every unambiguous candidate name not already
present in `notifiers` onto the instance's `notifiers` and
`exportsProps`.  Notifier functions are identified by numeric ids;
subscriptions are logged as (notifier id, updater id) pairs and the
`notify(update)` calls of the forwarding pass as notifier ids. -/

/-- A value of the `candidateAll` object: the literal `false` (the
seeded `default` exclusion, or an ambiguity marker) or a captured
notifier reference. -/
inductive CandV where
  | fls : CandV
  | notif : Nat → CandV
deriving DecidableEq, Repr

/-- A dependency module instance as `imports` observes it: its
notifier table (including the `'*'` entry every instance carries) and
the outcome of its cycle-tolerant `execute()`. -/
structure DepInstance where
  notifiers : JSRec Nat
  executeResult : Except JSError Unit

/-- The `candidateAll` update for one `export *` source: walk
`entries(importNotifiers)`; a name seen for the first time captures
the notifier, a name already present (including `default`, seeded as
`false`) is set to `false`. -/
def candStep : JSRec CandV → JSRec Nat → JSRec CandV
  | cand, [] => cand
  | cand, (name, nid) :: rest =>
      candStep
        (match lookupRec cand name with
         | none => setRec cand name (CandV.notif nid)
         | some _ => setRec cand name CandV.fls)
        rest

/-- The inner loop over `importUpdaters` for one dependency: look up
each requested import name in the dependency's notifiers, throwing the
`SyntaxError` when absent, and subscribe each updater. -/
def processUpdaters (importNotifiers : JSRec Nat) (specifier : String) :
    List (String × List Nat) → Except JSError (List (Nat × Nat))
  | [] => .ok []
  | (importName, updaters) :: rest =>
      match lookupRec importNotifiers importName with
      | none => .error ⟨.syntaxError, "The requested module '" ++ specifier
          ++ "' does not provide an export named '" ++ importName ++ "'"⟩
      | some nid =>
          match processUpdaters importNotifiers specifier rest with
          | .error e => .error e
          | .ok log => .ok (updaters.map (fun u => (nid, u)) ++ log)

/-- The outer loop of `imports` over the update record: execute the
dependency, subscribe the requested updaters, then (for `export *`
sources) merge the dependency's notifiers into `candidateAll`. -/
def importsEntries (instances : String → DepInstance) (exportAlls : List String) :
    List (String × List (String × List Nat)) → JSRec CandV →
    Except JSError (JSRec CandV × List (Nat × Nat))
  | [], cand => .ok (cand, [])
  | (specifier, importUpdaters) :: rest, cand =>
      match (instances specifier).executeResult with
      | .error e => .error e
      | .ok _ =>
          match processUpdaters (instances specifier).notifiers specifier importUpdaters with
          | .error e => .error e
          | .ok log =>
              match importsEntries instances exportAlls rest
                  (if specifier ∈ exportAlls
                   then candStep cand (instances specifier).notifiers
                   else cand) with
              | .error e => .error e
              | .ok (candF, logR) => .ok (candF, log ++ logR)

/-- The forwarding pass over `entries(candidateAll)`: each name not
already in `notifiers` whose candidate is not `false` is added to
`notifiers` and `exportsProps`, and its notifier is invoked once to
seed the forwarded binding. -/
def forwardCandidates (notifiers : JSRec Nat) (exportsProps : JSRec Unit) :
    List (String × CandV) → JSRec Nat × JSRec Unit × List Nat
  | [] => (notifiers, exportsProps, [])
  | (importName, c) :: rest =>
      match lookupRec notifiers importName, c with
      | none, CandV.notif nid =>
          let r := forwardCandidates (setRec notifiers importName nid)
            (setRec exportsProps importName ()) rest
          (r.1, r.2.1, nid :: r.2.2)
      | _, _ => forwardCandidates notifiers exportsProps rest

/-- The observable outcome of a successful `imports` call. -/
structure ImportsOutcome where
  notifiers : JSRec Nat
  exportsProps : JSRec Unit
  subscriptions : List (Nat × Nat)
  notifyCalls : List Nat

/-- The whole `imports(updateRecord)` call: the entry loop with
`candidateAll` seeded as `{ default: false }`, then the candidate
forwarding pass over the instance's own `notifiers`/`exportsProps`. -/
def runImports (instances : String → DepInstance) (exportAlls : List String)
    (notifiers0 : JSRec Nat) (exportsProps0 : JSRec Unit)
    (updateRecord : List (String × List (String × List Nat))) :
    Except JSError ImportsOutcome :=
  match importsEntries instances exportAlls updateRecord [("default", CandV.fls)] with
  | .error e => .error e
  | .ok (cand, subs) =>
      let r := forwardCandidates notifiers0 exportsProps0 cand
      .ok ⟨r.1, r.2.1, subs, r.2.2⟩

/-- First missing requested import name within one dependency's
`importUpdaters`, in request order. -/
def findMissingIn (importNotifiers : JSRec Nat) : List (String × List Nat) → Option String
  | [] => none
  | (importName, _) :: rest =>
      match lookupRec importNotifiers importName with
      | none => some importName
      | some _ => findMissingIn importNotifiers rest

/-- First (dependency specifier, missing import name) pair of the
update record, in processing order. -/
def findMissingImport (instances : String → DepInstance) :
    List (String × List (String × List Nat)) → Option (String × String)
  | [] => none
  | (specifier, importUpdaters) :: rest =>
      match findMissingIn (instances specifier).notifiers importUpdaters with
      | some name => some (specifier, name)
      | none => findMissingImport instances rest

theorem candStep_not_mem (cand : JSRec CandV) (l : JSRec Nat) (N : String)
    (h : N ∉ keysR l) : lookupRec (candStep cand l) N = lookupRec cand N := by
  induction l generalizing cand with
  | nil => rfl
  | cons hd rest ih =>
    obtain ⟨name, nid⟩ := hd
    have hne : N ≠ name := fun hh => h (hh ▸ List.mem_cons_self _ _)
    have h' : N ∉ keysR rest := fun hh => h (List.mem_cons_of_mem _ hh)
    show lookupRec (candStep _ rest) N = _
    rw [ih _ h']
    cases hl : lookupRec cand name <;>
      simp [hl, lookupRec_set_ne _ _ _ _ hne]

theorem candStep_pres_isSome (cand : JSRec CandV) (l : JSRec Nat) (N : String)
    (h : (lookupRec cand N).isSome) : (lookupRec (candStep cand l) N).isSome := by
  induction l generalizing cand with
  | nil => exact h
  | cons hd rest ih =>
    obtain ⟨name, nid⟩ := hd
    show (lookupRec (candStep _ rest) N).isSome
    refine ih _ ?_
    by_cases hn : N = name
    · subst hn
      cases hl : lookupRec cand N <;> simp [hl, lookupRec_set_self]
    · cases hl : lookupRec cand name <;>
        simp [hl, lookupRec_set_ne _ _ _ _ hn]
      · exact h
      · exact h

theorem candStep_pres_fls (cand : JSRec CandV) (l : JSRec Nat) (N : String)
    (h : lookupRec cand N = some CandV.fls) :
    lookupRec (candStep cand l) N = some CandV.fls := by
  induction l generalizing cand with
  | nil => exact h
  | cons hd rest ih =>
    obtain ⟨name, nid⟩ := hd
    show lookupRec (candStep _ rest) N = _
    refine ih _ ?_
    by_cases hn : N = name
    · subst hn
      rw [h]
      simp [lookupRec_set_self]
    · cases hl : lookupRec cand name <;>
        simp [hl, lookupRec_set_ne _ _ _ _ hn] <;> exact h

theorem candStep_mem_isSome (cand : JSRec CandV) (l : JSRec Nat) (N : String)
    (h : N ∈ keysR l) : (lookupRec (candStep cand l) N).isSome := by
  induction l generalizing cand with
  | nil => simp [keysR] at h
  | cons hd rest ih =>
    obtain ⟨name, nid⟩ := hd
    by_cases hn : N = name
    · subst hn
      show (lookupRec (candStep _ rest) N).isSome
      refine candStep_pres_isSome _ rest N ?_
      cases hl : lookupRec cand N <;> simp [hl, lookupRec_set_self]
    · have h' : N ∈ keysR rest := by
        rcases List.mem_cons.mp h with h1 | h2
        · exact absurd h1 hn
        · exact h2
      exact ih _ h'

theorem candStep_isSome_mem_fls (cand : JSRec CandV) (l : JSRec Nat) (N : String)
    (h1 : (lookupRec cand N).isSome) (h2 : N ∈ keysR l) :
    lookupRec (candStep cand l) N = some CandV.fls := by
  induction l generalizing cand with
  | nil => simp [keysR] at h2
  | cons hd rest ih =>
    obtain ⟨name, nid⟩ := hd
    by_cases hn : N = name
    · subst hn
      show lookupRec (candStep _ rest) N = _
      refine candStep_pres_fls _ rest N ?_
      cases hl : lookupRec cand N with
      | none => rw [hl] at h1; simp at h1
      | some c => simp [hl, lookupRec_set_self]
    · have h2' : N ∈ keysR rest := by
        rcases List.mem_cons.mp h2 with hx | hx
        · exact absurd hx hn
        · exact hx
      show lookupRec (candStep _ rest) N = _
      refine ih _ ?_ h2'
      cases hl : lookupRec cand name <;>
        simp [hl, lookupRec_set_ne _ _ _ _ hn] <;> exact h1

theorem candStep_nodup (cand : JSRec CandV) (l : JSRec Nat)
    (h : (keysR cand).Nodup) : (keysR (candStep cand l)).Nodup := by
  induction l generalizing cand with
  | nil => exact h
  | cons hd rest ih =>
    obtain ⟨name, nid⟩ := hd
    show (keysR (candStep _ rest)).Nodup
    refine ih _ ?_
    cases hl : lookupRec cand name <;> exact nodup_keysR_setRec _ _ _ h

theorem importsEntries_cons_ok (instances : String → DepInstance)
    (ea : List String) (s0 : String) (iu0 : List (String × List Nat))
    (rest : List (String × List (String × List Nat))) (cand : JSRec CandV)
    (out : JSRec CandV × List (Nat × Nat))
    (h : importsEntries instances ea ((s0, iu0) :: rest) cand = .ok out) :
    ∃ log candF logR,
      (instances s0).executeResult = .ok () ∧
      processUpdaters (instances s0).notifiers s0 iu0 = .ok log ∧
      importsEntries instances ea rest
        (if s0 ∈ ea then candStep cand (instances s0).notifiers else cand)
        = .ok (candF, logR) ∧
      out = (candF, log ++ logR) := by
  cases hex : (instances s0).executeResult with
  | error e =>
    simp [importsEntries, hex] at h
  | ok u =>
    cases u
    cases hpu : processUpdaters (instances s0).notifiers s0 iu0 with
    | error e =>
      simp [importsEntries, hex, hpu] at h
    | ok log =>
      cases hrest : importsEntries instances ea rest
          (if s0 ∈ ea then candStep cand (instances s0).notifiers else cand) with
      | error e =>
        simp [importsEntries, hex, hpu, hrest] at h
      | ok pr =>
        obtain ⟨candF, logR⟩ := pr
        simp only [importsEntries, hex, hpu, hrest] at h
        exact ⟨log, candF, logR, rfl, rfl, rfl, by injection h with h'; exact h'.symm⟩

theorem importsEntries_pres_fls (instances : String → DepInstance)
    (ea : List String) (ur : List (String × List (String × List Nat))) :
    ∀ cand candF log, importsEntries instances ea ur cand = .ok (candF, log) →
    ∀ N, lookupRec cand N = some CandV.fls → lookupRec candF N = some CandV.fls := by
  induction ur with
  | nil =>
    intro cand candF log h N hN
    simp only [importsEntries] at h
    injection h with h'
    obtain ⟨h1, _⟩ := Prod.mk.inj h'
    rw [← h1]
    exact hN
  | cons hd rest ih =>
    obtain ⟨s0, iu0⟩ := hd
    intro cand candF log h N hN
    obtain ⟨log1, candF', logR, hex, hpu, hrest, hout⟩ :=
      importsEntries_cons_ok instances ea s0 iu0 rest cand _ h
    obtain ⟨h1, _⟩ := Prod.mk.inj hout
    have hN' : lookupRec
        (if s0 ∈ ea then candStep cand (instances s0).notifiers else cand) N
        = some CandV.fls := by
      by_cases he : s0 ∈ ea
      · rw [if_pos he]
        exact candStep_pres_fls _ _ _ hN
      · rw [if_neg he]
        exact hN
    rw [h1]
    exact ih _ _ _ hrest N hN'

theorem importsEntries_pres_isSome (instances : String → DepInstance)
    (ea : List String) (ur : List (String × List (String × List Nat))) :
    ∀ cand candF log, importsEntries instances ea ur cand = .ok (candF, log) →
    ∀ N, (lookupRec cand N).isSome → (lookupRec candF N).isSome := by
  induction ur with
  | nil =>
    intro cand candF log h N hN
    simp only [importsEntries] at h
    injection h with h'
    obtain ⟨h1, _⟩ := Prod.mk.inj h'
    rw [← h1]
    exact hN
  | cons hd rest ih =>
    obtain ⟨s0, iu0⟩ := hd
    intro cand candF log h N hN
    obtain ⟨log1, candF', logR, hex, hpu, hrest, hout⟩ :=
      importsEntries_cons_ok instances ea s0 iu0 rest cand _ h
    obtain ⟨h1, _⟩ := Prod.mk.inj hout
    have hN' : (lookupRec
        (if s0 ∈ ea then candStep cand (instances s0).notifiers else cand) N).isSome := by
      by_cases he : s0 ∈ ea
      · rw [if_pos he]
        exact candStep_pres_isSome _ _ _ hN
      · rw [if_neg he]
        exact hN
    rw [h1]
    exact ih _ _ _ hrest N hN'

theorem importsEntries_nodup (instances : String → DepInstance)
    (ea : List String) (ur : List (String × List (String × List Nat))) :
    ∀ cand candF log, importsEntries instances ea ur cand = .ok (candF, log) →
    (keysR cand).Nodup → (keysR candF).Nodup := by
  induction ur with
  | nil =>
    intro cand candF log h hN
    simp only [importsEntries] at h
    injection h with h'
    obtain ⟨h1, _⟩ := Prod.mk.inj h'
    rw [← h1]
    exact hN
  | cons hd rest ih =>
    obtain ⟨s0, iu0⟩ := hd
    intro cand candF log h hN
    obtain ⟨log1, candF', logR, hex, hpu, hrest, hout⟩ :=
      importsEntries_cons_ok instances ea s0 iu0 rest cand _ h
    obtain ⟨h1, _⟩ := Prod.mk.inj hout
    have hN' : (keysR
        (if s0 ∈ ea then candStep cand (instances s0).notifiers else cand)).Nodup := by
      by_cases he : s0 ∈ ea
      · rw [if_pos he]
        exact candStep_nodup _ _ hN
      · rw [if_neg he]
        exact hN
    rw [h1]
    exact ih _ _ _ hrest hN'

theorem importsEntries_isSome_provider_fls (instances : String → DepInstance)
    (ea : List String) (ur : List (String × List (String × List Nat))) :
    ∀ cand candF log, importsEntries instances ea ur cand = .ok (candF, log) →
    ∀ s iu N, (s, iu) ∈ ur → s ∈ ea → N ∈ keysR (instances s).notifiers →
    (lookupRec cand N).isSome → lookupRec candF N = some CandV.fls := by
  induction ur with
  | nil =>
    intro cand candF log h s iu N hmem
    simp at hmem
  | cons hd rest ih =>
    obtain ⟨s0, iu0⟩ := hd
    intro cand candF log h s iu N hmem hea hkey hsome
    obtain ⟨log1, candF', logR, hex, hpu, hrest, hout⟩ :=
      importsEntries_cons_ok instances ea s0 iu0 rest cand _ h
    obtain ⟨h1, _⟩ := Prod.mk.inj hout
    rw [h1]
    rcases List.mem_cons.mp hmem with heq | hmem'
    · obtain ⟨hs, _⟩ := Prod.mk.inj heq
      subst hs
      rw [if_pos hea] at hrest
      exact importsEntries_pres_fls instances ea rest _ _ _ hrest N
        (candStep_isSome_mem_fls _ _ _ hsome hkey)
    · have hsome' : (lookupRec
          (if s0 ∈ ea then candStep cand (instances s0).notifiers else cand) N).isSome := by
        by_cases he : s0 ∈ ea
        · rw [if_pos he]
          exact candStep_pres_isSome _ _ _ hsome
        · rw [if_neg he]
          exact hsome
      exact ih _ _ _ hrest s iu N hmem' hea hkey hsome'

theorem importsEntries_two_providers (instances : String → DepInstance)
    (ea : List String) (ur : List (String × List (String × List Nat))) :
    ∀ cand candF log, importsEntries instances ea ur cand = .ok (candF, log) →
    ∀ s1 iu1 s2 iu2 N, (s1, iu1) ∈ ur → (s2, iu2) ∈ ur → s1 ≠ s2 →
    s1 ∈ ea → s2 ∈ ea →
    N ∈ keysR (instances s1).notifiers → N ∈ keysR (instances s2).notifiers →
    lookupRec candF N = some CandV.fls := by
  induction ur with
  | nil =>
    intro cand candF log h s1 iu1 s2 iu2 N hmem1
    simp at hmem1
  | cons hd rest ih =>
    obtain ⟨s0, iu0⟩ := hd
    intro cand candF log h s1 iu1 s2 iu2 N hmem1 hmem2 hne hea1 hea2 hk1 hk2
    obtain ⟨log1, candF', logR, hex, hpu, hrest, hout⟩ :=
      importsEntries_cons_ok instances ea s0 iu0 rest cand _ h
    obtain ⟨h1, _⟩ := Prod.mk.inj hout
    rw [h1]
    by_cases hs1 : s1 = s0
    · have hmem2' : (s2, iu2) ∈ rest := by
        rcases List.mem_cons.mp hmem2 with heq | hx
        · obtain ⟨hs, _⟩ := Prod.mk.inj heq
          exact absurd (hs1 ▸ hs : s2 = s1).symm hne
        · exact hx
      have hsome' : (lookupRec
          (if s0 ∈ ea then candStep cand (instances s0).notifiers else cand) N).isSome := by
        rw [if_pos (hs1 ▸ hea1)]
        exact candStep_mem_isSome _ _ _ (hs1 ▸ hk1)
      exact importsEntries_isSome_provider_fls instances ea rest _ _ _ hrest
        s2 iu2 N hmem2' hea2 hk2 hsome'
    · by_cases hs2 : s2 = s0
      · have hmem1' : (s1, iu1) ∈ rest := by
          rcases List.mem_cons.mp hmem1 with heq | hx
          · obtain ⟨hs, _⟩ := Prod.mk.inj heq
            exact absurd (hs ▸ hs2.symm : s1 = s2) hne
          · exact hx
        have hsome' : (lookupRec
            (if s0 ∈ ea then candStep cand (instances s0).notifiers else cand) N).isSome := by
          rw [if_pos (hs2 ▸ hea2)]
          exact candStep_mem_isSome _ _ _ (hs2 ▸ hk2)
        exact importsEntries_isSome_provider_fls instances ea rest _ _ _ hrest
          s1 iu1 N hmem1' hea1 hk1 hsome'
      · have hmem1' : (s1, iu1) ∈ rest := by
          rcases List.mem_cons.mp hmem1 with heq | hx
          · obtain ⟨hs, _⟩ := Prod.mk.inj heq
            exact absurd hs hs1
          · exact hx
        have hmem2' : (s2, iu2) ∈ rest := by
          rcases List.mem_cons.mp hmem2 with heq | hx
          · obtain ⟨hs, _⟩ := Prod.mk.inj heq
            exact absurd hs hs2
          · exact hx
        exact ih _ _ _ hrest s1 iu1 s2 iu2 N hmem1' hmem2' hne hea1 hea2 hk1 hk2

theorem forwardCandidates_not_mem (cl : List (String × CandV)) :
    ∀ (nots : JSRec Nat) (props : JSRec Unit) (N : String), N ∉ keysR cl →
    lookupRec (forwardCandidates nots props cl).1 N = lookupRec nots N ∧
    lookupRec (forwardCandidates nots props cl).2.1 N = lookupRec props N := by
  induction cl with
  | nil => intro nots props N h; exact ⟨rfl, rfl⟩
  | cons hd rest ih =>
    obtain ⟨name, c⟩ := hd
    intro nots props N h
    have hne : N ≠ name := fun hh => h (hh ▸ List.mem_cons_self _ _)
    have h' : N ∉ keysR rest := fun hh => h (List.mem_cons_of_mem _ hh)
    cases hl : lookupRec nots name with
    | none =>
      cases c with
      | notif nid =>
        simp only [forwardCandidates, hl]
        obtain ⟨h1, h2⟩ := ih (setRec nots name nid) (setRec props name ()) N h'
        exact ⟨by rw [h1, lookupRec_set_ne _ _ _ _ hne],
               by rw [h2, lookupRec_set_ne _ _ _ _ hne]⟩
      | fls =>
        simp only [forwardCandidates, hl]
        exact ih nots props N h'
    | some w =>
      cases c with
      | notif nid =>
        simp only [forwardCandidates, hl]
        exact ih nots props N h'
      | fls =>
        simp only [forwardCandidates, hl]
        exact ih nots props N h'

theorem forwardCandidates_absent (cl : List (String × CandV)) :
    ∀ (nots : JSRec Nat) (props : JSRec Unit) (N : String),
    (keysR cl).Nodup → lookupRec cl N = some CandV.fls →
    lookupRec nots N = none → lookupRec props N = none →
    lookupRec (forwardCandidates nots props cl).1 N = none ∧
    lookupRec (forwardCandidates nots props cl).2.1 N = none := by
  induction cl with
  | nil =>
    intro nots props N _ hfls
    simp [lookupRec] at hfls
  | cons hd rest ih =>
    obtain ⟨name, c⟩ := hd
    intro nots props N hnodup hfls hn hp
    have hnodup' : (keysR rest).Nodup := (List.nodup_cons.mp hnodup).2
    by_cases hname : name = N
    · subst hname
      have hc : c = CandV.fls := by
        have : lookupRec ((name, c) :: rest) name = some c := by
          simp [lookupRec]
        rw [this] at hfls
        injection hfls
      subst hc
      have hnotm : name ∉ keysR rest := (List.nodup_cons.mp hnodup).1
      cases hl : lookupRec nots name with
      | none =>
        simp only [forwardCandidates, hl]
        obtain ⟨h1, h2⟩ := forwardCandidates_not_mem rest nots props name hnotm
        exact ⟨by rw [h1]; exact hn, by rw [h2]; exact hp⟩
      | some w =>
        rw [hl] at hn
        exact absurd hn (by simp)
    · have hne : N ≠ name := fun hh => hname hh.symm
      have hfls' : lookupRec rest N = some CandV.fls := by
        have : lookupRec ((name, c) :: rest) N
            = if name = N then some c else lookupRec rest N := rfl
        rw [this, if_neg hname] at hfls
        exact hfls
      cases hl : lookupRec nots name with
      | none =>
        cases c with
        | notif nid =>
          simp only [forwardCandidates, hl]
          refine ih (setRec nots name nid) (setRec props name ()) N hnodup' hfls' ?_ ?_
          · rw [lookupRec_set_ne _ _ _ _ hne]
            exact hn
          · rw [lookupRec_set_ne _ _ _ _ hne]
            exact hp
        | fls =>
          simp only [forwardCandidates, hl]
          exact ih nots props N hnodup' hfls' hn hp
      | some w =>
        cases c with
        | notif nid =>
          simp only [forwardCandidates, hl]
          exact ih nots props N hnodup' hfls' hn hp
        | fls =>
          simp only [forwardCandidates, hl]
          exact ih nots props N hnodup' hfls' hn hp

/-- C2: in the imports step of a parsed module instance, a name
provided by two or more distinct `export *` sources (`reexports`)
and not otherwise defined by the module itself ends up absent from
the instance's notifiers and export properties, and the name
`default` is never forwarded from any `export *` source. -/
theorem exportAll_ambiguity_and_default (instances : String → DepInstance)
    (ea : List String) (notifiers0 : JSRec Nat) (exportsProps0 : JSRec Unit)
    (ur : List (String × List (String × List Nat))) (out : ImportsOutcome)
    (hok : runImports instances ea notifiers0 exportsProps0 ur = .ok out) :
    (∀ N s1 iu1 s2 iu2,
      (s1, iu1) ∈ ur → (s2, iu2) ∈ ur → s1 ≠ s2 → s1 ∈ ea → s2 ∈ ea →
      N ∈ keysR (instances s1).notifiers → N ∈ keysR (instances s2).notifiers →
      lookupRec notifiers0 N = none → lookupRec exportsProps0 N = none →
      lookupRec out.notifiers N = none ∧ lookupRec out.exportsProps N = none) ∧
    (lookupRec notifiers0 "default" = none → lookupRec exportsProps0 "default" = none →
      lookupRec out.notifiers "default" = none ∧
      lookupRec out.exportsProps "default" = none) := by
  cases hie : importsEntries instances ea ur [("default", CandV.fls)] with
  | error e => simp [runImports, hie] at hok
  | ok pr =>
    obtain ⟨cand, subs⟩ := pr
    simp only [runImports, hie] at hok
    injection hok with h'
    have hnodup : (keysR cand).Nodup :=
      importsEntries_nodup instances ea ur _ _ _ hie (by simp [keysR])
    constructor
    · intro N s1 iu1 s2 iu2 hm1 hm2 hne he1 he2 hk1 hk2 hn0 hp0
      have hfls := importsEntries_two_providers instances ea ur _ _ _ hie
        s1 iu1 s2 iu2 N hm1 hm2 hne he1 he2 hk1 hk2
      have habs := forwardCandidates_absent cand notifiers0 exportsProps0 N
        hnodup hfls hn0 hp0
      rw [← h']
      exact habs
    · intro hn0 hp0
      have hfls : lookupRec cand "default" = some CandV.fls :=
        importsEntries_pres_fls instances ea ur _ _ _ hie "default"
          (by simp [lookupRec])
      have habs := forwardCandidates_absent cand notifiers0 exportsProps0 "default"
        hnodup hfls hn0 hp0
      rw [← h']
      exact habs

/-- Dependency instances for the C2 witness: both `export *` sources
provide `x`, only the second provides `y`. -/
def instC2 : String → DepInstance := fun s =>
  if s = "a" then ⟨[("*", 100), ("x", 1)], .ok ()⟩
  else if s = "b" then ⟨[("*", 200), ("x", 2), ("y", 3)], .ok ()⟩
  else ⟨[], .ok ()⟩

def urC2 : List (String × List (String × List Nat)) := [("a", []), ("b", [])]

def outC2 : ImportsOutcome := ⟨[("*", 0), ("y", 3)], [("y", ())], [], [3]⟩

theorem exportAll_ambiguity_witness :
    runImports instC2 ["a", "b"] [("*", 0)] [] urC2 = .ok outC2 ∧
    lookupRec outC2.notifiers "x" = none ∧
    lookupRec outC2.exportsProps "x" = none ∧
    lookupRec outC2.notifiers "default" = none ∧
    lookupRec outC2.exportsProps "default" = none := by
  have hok : runImports instC2 ["a", "b"] [("*", 0)] [] urC2 = .ok outC2 := by rfl
  have h := exportAll_ambiguity_and_default instC2 ["a", "b"] [("*", 0)] [] urC2 outC2 hok
  have h1 := h.1 "x" "a" [] "b" []
    (by simp [urC2]) (by simp [urC2]) (by decide) (by decide) (by decide)
    (by decide) (by decide) rfl rfl
  have h2 := h.2 rfl rfl
  exact ⟨hok, h1.1, h1.2, h2.1, h2.2⟩

theorem findMissingIn_spec (notifs : JSRec Nat) (iu : List (String × List Nat)) :
    ∀ name, findMissingIn notifs iu = some name →
    lookupRec notifs name = none ∧ ∃ us, (name, us) ∈ iu := by
  induction iu with
  | nil => intro name h; simp [findMissingIn] at h
  | cons hd rest ih =>
    obtain ⟨n0, us0⟩ := hd
    intro name h
    cases hl : lookupRec notifs n0 with
    | none =>
      simp only [findMissingIn, hl] at h
      injection h with h'
      subst h'
      exact ⟨hl, us0, List.mem_cons_self _ _⟩
    | some nid =>
      simp only [findMissingIn, hl] at h
      obtain ⟨h1, us, h2⟩ := ih name h
      exact ⟨h1, us, List.mem_cons_of_mem _ h2⟩

theorem processUpdaters_missing (notifs : JSRec Nat) (spec : String)
    (iu : List (String × List Nat)) :
    ∀ name, findMissingIn notifs iu = some name →
    processUpdaters notifs spec iu = .error ⟨.syntaxError,
      "The requested module '" ++ spec ++ "' does not provide an export named '"
        ++ name ++ "'"⟩ := by
  induction iu with
  | nil => intro name h; simp [findMissingIn] at h
  | cons hd rest ih =>
    obtain ⟨n0, us0⟩ := hd
    intro name h
    cases hl : lookupRec notifs n0 with
    | none =>
      simp only [findMissingIn, hl] at h
      injection h with h'
      subst h'
      simp [processUpdaters, hl]
    | some nid =>
      simp only [findMissingIn, hl] at h
      simp only [processUpdaters, hl]
      rw [ih name h]

theorem processUpdaters_ok (notifs : JSRec Nat) (spec : String)
    (iu : List (String × List Nat))
    (h : findMissingIn notifs iu = none) :
    ∃ log, processUpdaters notifs spec iu = .ok log := by
  induction iu with
  | nil => exact ⟨[], rfl⟩
  | cons hd rest ih =>
    obtain ⟨n0, us0⟩ := hd
    cases hl : lookupRec notifs n0 with
    | none => simp [findMissingIn, hl] at h
    | some nid =>
      simp only [findMissingIn, hl] at h
      obtain ⟨log, hlog⟩ := ih h
      exact ⟨us0.map (fun u => (nid, u)) ++ log, by simp only [processUpdaters, hl, hlog]⟩

theorem findMissingImport_spec (instances : String → DepInstance) :
    ∀ (ur : List (String × List (String × List Nat))) spec name,
    findMissingImport instances ur = some (spec, name) →
    ∃ iu, (spec, iu) ∈ ur ∧
      findMissingIn (instances spec).notifiers iu = some name := by
  intro ur
  induction ur with
  | nil => intro spec name h; simp [findMissingImport] at h
  | cons hd rest ih =>
    obtain ⟨s0, iu0⟩ := hd
    intro spec name h
    cases hfm : findMissingIn (instances s0).notifiers iu0 with
    | some n0 =>
      simp only [findMissingImport, hfm] at h
      injection h with h'
      obtain ⟨h1, h2⟩ := Prod.mk.inj h'
      subst h1
      subst h2
      exact ⟨iu0, List.mem_cons_self _ _, hfm⟩
    | none =>
      simp only [findMissingImport, hfm] at h
      obtain ⟨iu, h1, h2⟩ := ih spec name h
      exact ⟨iu, List.mem_cons_of_mem _ h1, h2⟩

theorem importsEntries_missing (instances : String → DepInstance) (ea : List String) :
    ∀ (ur : List (String × List (String × List Nat))) (cand : JSRec CandV)
      (spec name : String),
    (∀ p ∈ ur, (instances p.1).executeResult = .ok ()) →
    findMissingImport instances ur = some (spec, name) →
    importsEntries instances ea ur cand = .error ⟨.syntaxError,
      "The requested module '" ++ spec ++ "' does not provide an export named '"
        ++ name ++ "'"⟩ := by
  intro ur
  induction ur with
  | nil => intro cand spec name _ h; simp [findMissingImport] at h
  | cons hd rest ih =>
    obtain ⟨s0, iu0⟩ := hd
    intro cand spec name hexec hmiss
    have hex0 : (instances s0).executeResult = .ok () :=
      hexec (s0, iu0) (List.mem_cons_self _ _)
    cases hfm : findMissingIn (instances s0).notifiers iu0 with
    | some n0 =>
      simp only [findMissingImport, hfm] at hmiss
      injection hmiss with h'
      obtain ⟨h1, h2⟩ := Prod.mk.inj h'
      subst h1
      subst h2
      have hpu := processUpdaters_missing (instances s0).notifiers s0 iu0 n0 hfm
      simp only [importsEntries, hex0, hpu]
    | none =>
      simp only [findMissingImport, hfm] at hmiss
      obtain ⟨log, hpu⟩ := processUpdaters_ok (instances s0).notifiers s0 iu0 hfm
      simp only [importsEntries, hex0, hpu]
      rw [ih _ spec name (fun p hp => hexec p (List.mem_cons_of_mem _ hp)) hmiss]

/-- C3: during `execute()` of a parsed module instance, when the
dependency instance for a requested specifier has no notifier for a
requested import name (and no earlier failure preempts it), `imports`
throws a `SyntaxError` synchronously whose message names both the
specifier and the missing import name, in the exact form
`The requested module X does not provide an export named Y`. -/
theorem missing_import_syntax_error (instances : String → DepInstance)
    (ea : List String) (notifiers0 : JSRec Nat) (exportsProps0 : JSRec Unit)
    (ur : List (String × List (String × List Nat))) (specifier importName : String)
    (hexec : ∀ p ∈ ur, (instances p.1).executeResult = .ok ())
    (hmiss : findMissingImport instances ur = some (specifier, importName)) :
    lookupRec (instances specifier).notifiers importName = none ∧
    (∃ iu us, (specifier, iu) ∈ ur ∧ (importName, us) ∈ iu) ∧
    runImports instances ea notifiers0 exportsProps0 ur =
      .error ⟨.syntaxError, "The requested module '" ++ specifier
        ++ "' does not provide an export named '" ++ importName ++ "'"⟩ := by
  obtain ⟨iu, hmem, hfin⟩ := findMissingImport_spec instances ur specifier importName hmiss
  obtain ⟨hlook, us, hus⟩ := findMissingIn_spec (instances specifier).notifiers iu
    importName hfin
  refine ⟨hlook, ⟨iu, us, hmem, hus⟩, ?_⟩
  have hie := importsEntries_missing instances ea ur [("default", CandV.fls)]
    specifier importName hexec hmiss
  simp [runImports, hie]

/-- Dependency instances for the C3 witness: every dependency exports
only `present`. -/
def instC3 : String → DepInstance := fun _ => ⟨[("present", 1)], .ok ()⟩

def urC3 : List (String × List (String × List Nat)) := [("./b.js", [("missing", [3])])]

theorem missing_import_witness :
    findMissingImport instC3 urC3 = some ("./b.js", "missing") ∧
    runImports instC3 [] [("*", 0)] [] urC3 =
      .error ⟨.syntaxError,
        "The requested module './b.js' does not provide an export named 'missing'"⟩ := by
  refine ⟨rfl, ?_⟩
  exact (missing_import_syntax_error instC3 [] [("*", 0)] [] urC3 "./b.js" "missing"
    (by intro p hp; simp [urC3] at hp; subst hp; rfl) rfl).2.2
